import Mathlib

/-!
Shallow embedding of the transactional I/O engine of the MMC mailbox
"virtual EEPROM" driver (mmc-mailbox-driver.c): the chunk planners, the
timeout-bounded retrying transport adapter, the page-lock protocol, the
read/write transaction engine and the shutdown handshake.

C unsigned arithmetic is modelled with Nat (none of the arithmetic here can
overflow the 32/64-bit C types for the values involved), errno-style results
with Int (negative errno, as in the C source).  The raw transport
(`regmap_bulk_read` / `regmap_bulk_write`) and the clock (`jiffies`) are
external collaborators; they are modelled as oracles: `ok i` / `times i`
give the outcome and the start timestamp of the i-th raw attempt, and the
engine-level `oracle j` gives the outcome of the j-th adapter-level chunk
call.  Loops carry explicit fuel so that every definition is executable;
the fuel the callers pass is provably sufficient under the driver's own
init-time checks (`io_limit > 0`, `page_size > 0`, `write_max > 0`).
-/

/-- errno constant `EINVAL` (returned negated, as in the C source). -/
def EINVAL : Int := 22

/-- errno constant `ETIMEDOUT` (returned negated, as in the C source). -/
def ETIMEDOUT : Int := 110

/-- session state, from `struct at24_data`; the mutex and the
nvmem/client/regmap handles are external, the fields the engine's
arithmetic reads are kept. -/
structure At24Data where
  write_max : Nat
  byte_len : Nat
  page_size : Nat
deriving DecidableEq, Repr

/-- kernel `roundup(x, y)` macro: `((x + y - 1) / y) * y`, used with y > 0. -/
def roundup (x y : Nat) : Nat := ((x + y - 1) / y) * y

/-- `at24_adjust_read_count`: clamp `count` to the module-global
`mmc_mailbox_io_limit`; the session pointer and the offset are present in
the C signature but not used by the body. -/
def at24_adjust_read_count (io_limit : Nat) (mmc_mailbox : At24Data)
    (offset count : Nat) : Nat :=
  if count > io_limit then io_limit else count

/-- `at24_adjust_write_count`: clamp `count` to `write_max`, then clamp it
again so that `offset + count` does not run past the next `page_size`
boundary (`next_page = roundup(offset + 1, page_size)`). -/
def at24_adjust_write_count (mmc_mailbox : At24Data)
    (offset count : Nat) : Nat :=
  let count1 := if count > mmc_mailbox.write_max then mmc_mailbox.write_max
                else count
  let next_page := roundup (offset + 1) mmc_mailbox.page_size
  if offset + count1 > next_page then next_page - offset else count1

/-- retry loop shared by `at24_regmap_read` and `at24_regmap_write`.
`ok i` is the outcome of the i-th raw transport call, `times i` the jiffies
value sampled at the start of attempt i (sampled before the raw call, as in
the C source), `deadline` is jiffies-at-entry plus the converted write
timeout.  The do-while body makes attempt `n`: on success it exits at once;
on failure it sleeps and repeats only while the sampled start time was
before the deadline.  Returns `(attempts made, succeeded)`; `none` when
`fuel` runs out before the loop exits. -/
def retryAttempts (ok : Nat → Bool) (times : Nat → Nat) (deadline : Nat) :
    Nat → Nat → Option (Nat × Bool)
  | _, 0 => none
  | n, fuel + 1 =>
    if ok n then some (n + 1, true)
    else if times n < deadline then retryAttempts ok times deadline (n + 1) fuel
    else some (n + 1, false)

/-- `at24_regmap_read`: adjust the count, then retry `regmap_bulk_read`
until an attempt succeeds or an attempt starts at/after the deadline.
Returns the adjusted (planned) count on success and `-ETIMEDOUT` on
timeout, paired with the number of raw attempts made. -/
def at24_regmap_read (io_limit : Nat) (mmc_mailbox : At24Data)
    (offset count entry timeoutJ : Nat) (ok : Nat → Bool)
    (times : Nat → Nat) (fuel : Nat) : Option (Int × Nat) :=
  let c := at24_adjust_read_count io_limit mmc_mailbox offset count
  match retryAttempts ok times (entry + timeoutJ) 0 fuel with
  | none => none
  | some (k, true) => some ((c : Int), k)
  | some (k, false) => some (-ETIMEDOUT, k)

/-- `at24_regmap_write`: adjust the count with the write planner, then
retry `regmap_bulk_write` with the same deadline policy as the read
adapter. -/
def at24_regmap_write (mmc_mailbox : At24Data)
    (offset count entry timeoutJ : Nat) (ok : Nat → Bool)
    (times : Nat → Nat) (fuel : Nat) : Option (Int × Nat) :=
  let c := at24_adjust_write_count mmc_mailbox offset count
  match retryAttempts ok times (entry + timeoutJ) 0 fuel with
  | none => none
  | some (k, true) => some ((c : Int), k)
  | some (k, false) => some (-ETIMEDOUT, k)

/-- contract of one retrying-adapter call with planned length `adj`,
exit result `r` and `k` raw attempts made: at least one raw attempt
happens; the planned length is returned exactly when the last attempt
succeeded (so the first success returns immediately); every non-final
attempt failed and started before the deadline `entry + timeoutJ`;
`-ETIMEDOUT` is returned exactly when no attempt succeeded, and then the
final attempt started at/after the deadline. -/
def AdapterContract (adj entry timeoutJ : Nat) (ok : Nat → Bool)
    (times : Nat → Nat) (r : Int) (k : Nat) : Prop :=
  1 ≤ k ∧
  (r = (adj : Int) ↔ ok (k - 1) = true) ∧
  (r = -ETIMEDOUT ↔ ∀ i, i < k → ok i = false) ∧
  (∀ i, i + 1 < k → (ok i = false ∧ times i < entry + timeoutJ)) ∧
  (r = -ETIMEDOUT → entry + timeoutJ ≤ times (k - 1))

/-- observable actions of one engine call.  `dataRead` / `dataWrite` are
the adapter-level chunk transfers issued by the chunk loop (offset and
planned length), `ctrlWrite` the single-byte page-lock control writes
(offset and value written), and the mutex events track the session
serialization lock. -/
inductive Event where
  | dataRead (off len : Nat)
  | dataWrite (off len : Nat)
  | ctrlWrite (off val : Nat)
  | mutexLock
  | mutexUnlock
deriving DecidableEq, Repr

/-- register offset of the page-lock flag byte, `MB_LOCK_OFFS`. -/
def MB_LOCK_OFFS : Nat := 2047

/-- value written to take the page lock, `MB_LOCK_FLAG`. -/
def MB_LOCK_FLAG : Nat := 1

/-- `lock_if_multiple`: for a multi-byte transfer, write the lock flag
through the retrying adapter (the write's own result is discarded in the C
source) and report that the lock was taken; single-byte transfers take no
lock. -/
def lock_if_multiple (count : Nat) : Bool × List Event :=
  if count ≤ 1 then (false, [])
  else (true, [Event.ctrlWrite MB_LOCK_OFFS MB_LOCK_FLAG])

/-- `unlock_if_locked`: clear the lock flag when it was taken (again a
discarded-result write through the retrying adapter). -/
def unlock_if_locked (locked : Bool) : List Event :=
  if locked then [Event.ctrlWrite MB_LOCK_OFFS 0] else []

/-- chunk loop of `at24_read`.  `oracle j` abstracts the outcome of the
j-th adapter-level chunk call, which by the adapter contract returns its
planned count on success and `-ETIMEDOUT` on failure; on success the
buffer cursor and offset advance and the remaining count drops by the
planned count.  `fuel` bounds the iterations; the engine passes
`fuel = count`, sufficient whenever `0 < io_limit` (checked at module
init), so the `-999` fuel-exhaustion sentinel is unreachable there. -/
def readLoop (io_limit : Nat) (mmc_mailbox : At24Data)
    (oracle : Nat → Bool) : Nat → Nat → Nat → Nat → Option Int × List Event
  | _, _, _, 0 => (none, [])
  | 0, _, _, _ + 1 => (some (-999), [])
  | fuel + 1, j, off, c + 1 =>
    let cnt := c + 1
    let chunk := at24_adjust_read_count io_limit mmc_mailbox off cnt
    if oracle j then
      let rest := readLoop io_limit mmc_mailbox oracle fuel (j + 1)
        (off + chunk) (cnt - chunk)
      (rest.1, Event.dataRead off chunk :: rest.2)
    else (some (-ETIMEDOUT), [Event.dataRead off chunk])

/-- chunk loop of `at24_write`, identical to `readLoop` except that the
chunk length comes from the write planner; `fuel = count` is sufficient
whenever `0 < write_max` and `0 < page_size` (both checked at probe
time). -/
def writeLoop (mmc_mailbox : At24Data)
    (oracle : Nat → Bool) : Nat → Nat → Nat → Nat → Option Int × List Event
  | _, _, _, 0 => (none, [])
  | 0, _, _, _ + 1 => (some (-999), [])
  | fuel + 1, j, off, c + 1 =>
    let cnt := c + 1
    let chunk := at24_adjust_write_count mmc_mailbox off cnt
    if oracle j then
      let rest := writeLoop mmc_mailbox oracle fuel (j + 1)
        (off + chunk) (cnt - chunk)
      (rest.1, Event.dataWrite off chunk :: rest.2)
    else (some (-ETIMEDOUT), [Event.dataWrite off chunk])

/-- `at24_read` transaction engine: zero count is a no-op success; an
out-of-bounds range is `-EINVAL` before any transport or mutex action;
otherwise the serialization mutex is taken, the page lock set for
multi-byte transfers, and chunks are transferred until the count is
exhausted.  A failed chunk releases the mutex and propagates the error
without clearing the page lock, exactly as the C error path does.  The
pm_runtime collaborator is external and modelled as succeeding.  Returns
the errno-style result and the trace of actions. -/
def at24_read (io_limit : Nat) (mmc_mailbox : At24Data) (oracle : Nat → Bool)
    (off count : Nat) : Int × List Event :=
  if count = 0 then (0, [])
  else if off + count > mmc_mailbox.byte_len then (-EINVAL, [])
  else
    let lk := lock_if_multiple count
    let lp := readLoop io_limit mmc_mailbox oracle count 0 off count
    match lp.1 with
    | some e => (e, Event.mutexLock :: lk.2 ++ lp.2 ++ [Event.mutexUnlock])
    | none => (0, Event.mutexLock :: lk.2 ++ lp.2 ++ unlock_if_locked lk.1
        ++ [Event.mutexUnlock])

/-- `at24_write` transaction engine: identical to `at24_read` except that a
zero count is rejected with `-EINVAL` and the write planner and write
transfer are used. -/
def at24_write (mmc_mailbox : At24Data) (oracle : Nat → Bool)
    (off count : Nat) : Int × List Event :=
  if count = 0 then (-EINVAL, [])
  else if off + count > mmc_mailbox.byte_len then (-EINVAL, [])
  else
    let lk := lock_if_multiple count
    let lp := writeLoop mmc_mailbox oracle count 0 off count
    match lp.1 with
    | some e => (e, Event.mutexLock :: lk.2 ++ lp.2 ++ [Event.mutexUnlock])
    | none => (0, Event.mutexLock :: lk.2 ++ lp.2 ++ unlock_if_locked lk.1
        ++ [Event.mutexUnlock])

/-- actions of the shutdown handshake: a raw single-attempt
`regmap_bulk_write` (no retry adapter), a busy delay in milliseconds, and
the `WARN_ON(1)` report at the end of the function. -/
inductive PEvent where
  | rawWrite (off val : Nat)
  | delay_ms (n : Nat)
  | warn
deriving DecidableEq, Repr

/-- register offset of the FPGA status byte, `MB_FPGA_STATUS_OFFS`. -/
def MB_FPGA_STATUS_OFFS : Nat := 2046

/-- `MB_FPGA_STATUS_SHDN_FINISHED`, i.e. `BIT(2)`. -/
def MB_FPGA_STATUS_SHDN_FINISHED : Nat := 4

/-- `mmc_mailbox_do_poweroff`: with a registered instance, one raw
transport write of the shutdown-finished bit to the status byte (no retry
loop), then a fixed 1000 ms delay to let the remote controller cut the
power, then the `WARN_ON(1)` that reports reaching the end of the function
as a should-be-unreachable condition.  Without a registered instance,
nothing is written. -/
def mmc_mailbox_do_poweroff (registered : Bool) : List PEvent :=
  if registered then
    [PEvent.rawWrite MB_FPGA_STATUS_OFFS MB_FPGA_STATUS_SHDN_FINISHED,
     PEvent.delay_ms 1000, PEvent.warn]
  else []

/-- the kernel `roundup` macro rounds up: `x ≤ roundup x p` for `p > 0`. -/
theorem roundup_ge (x p : Nat) (hp : 0 < p) : x ≤ roundup x p := by
  have h1 := Nat.mod_add_div (x + p - 1) p
  have h2 := Nat.mod_lt (x + p - 1) hp
  unfold roundup
  rw [Nat.mul_comm]
  omega

/-- the read planner never enlarges the request. -/
theorem at24_adjust_read_count_le (io_limit : Nat) (mmc_mailbox : At24Data)
    (offset count : Nat) :
    at24_adjust_read_count io_limit mmc_mailbox offset count ≤ count := by
  unfold at24_adjust_read_count
  split <;> omega

/-- the write planner never enlarges the request. -/
theorem at24_adjust_write_count_le (mmc_mailbox : At24Data)
    (offset count : Nat) :
    at24_adjust_write_count mmc_mailbox offset count ≤ count := by
  unfold at24_adjust_write_count
  dsimp only
  split <;> split <;> omega

/-- characterization of the retry loop: when it exits after `k` attempts
from start index `n`, at least one attempt was made, the last attempt's
outcome is the reported success flag, every non-final attempt failed and
started before the deadline, and on failure the final attempt started
at/after the deadline. -/
theorem retryAttempts_spec (ok : Nat → Bool) (times : Nat → Nat)
    (deadline : Nat) :
    ∀ fuel n k b, retryAttempts ok times deadline n fuel = some (k, b) →
      n < k ∧ ok (k - 1) = b ∧
      (∀ i, n ≤ i → i + 1 < k → (ok i = false ∧ times i < deadline)) ∧
      (b = false → deadline ≤ times (k - 1)) := by
  intro fuel
  induction fuel with
  | zero => intro n k b h; simp [retryAttempts] at h
  | succ fuel ih =>
    intro n k b h
    rw [retryAttempts] at h
    by_cases h1 : ok n
    · rw [if_pos h1] at h
      obtain ⟨hk, hb⟩ : n + 1 = k ∧ true = b := by
        injection h with h; injection h with h h2; exact ⟨h, h2⟩
      subst hk; subst hb
      refine ⟨by omega, by simpa using h1, ?_, by simp⟩
      intro i hni hik; omega
    · rw [if_neg h1] at h
      by_cases h2 : times n < deadline
      · rw [if_pos h2] at h
        obtain ⟨hnk, hlast, hmid, hfail⟩ := ih (n + 1) k b h
        refine ⟨by omega, hlast, ?_, hfail⟩
        intro i hni hik
        rcases Nat.eq_or_lt_of_le hni with heq | hlt
        · subst heq
          exact ⟨Bool.eq_false_iff.mpr h1, h2⟩
        · exact hmid i hlt hik
      · rw [if_neg h2] at h
        obtain ⟨hk, hb⟩ : n + 1 = k ∧ false = b := by
          injection h with h; injection h with h h3; exact ⟨h, h3⟩
        subst hk; subst hb
        refine ⟨by omega, by simpa using Bool.eq_false_iff.mpr h1, ?_, ?_⟩
        · intro i hni hik; omega
        · intro _; simpa using Nat.le_of_not_lt h2
/-- inversion for the read adapter: a returned result comes from a retry
loop exit, with the value determined by the success flag. -/
theorem at24_regmap_read_cases (io_limit : Nat) (mmc_mailbox : At24Data)
    (offset count entry timeoutJ : Nat) (ok : Nat → Bool)
    (times : Nat → Nat) (fuel : Nat) (r : Int) (k : Nat)
    (h : at24_regmap_read io_limit mmc_mailbox offset count entry timeoutJ
      ok times fuel = some (r, k)) :
    ∃ b, retryAttempts ok times (entry + timeoutJ) 0 fuel = some (k, b) ∧
      r = if b then
        (at24_adjust_read_count io_limit mmc_mailbox offset count : Int)
      else -ETIMEDOUT := by
  unfold at24_regmap_read at h
  rcases hr : retryAttempts ok times (entry + timeoutJ) 0 fuel with _ | ⟨k2, b⟩
  · rw [hr] at h; simp at h
  · rw [hr] at h
    cases b
    · obtain ⟨h1, h2⟩ : -ETIMEDOUT = r ∧ k2 = k := by
        injection h with h; injection h with h1 h2; exact ⟨h1, h2⟩
      subst h2
      exact ⟨false, rfl, by simp [h1.symm]⟩
    · obtain ⟨h1, h2⟩ :
          (at24_adjust_read_count io_limit mmc_mailbox offset count : Int)
            = r ∧ k2 = k := by
        injection h with h; injection h with h1 h2; exact ⟨h1, h2⟩
      subst h2
      exact ⟨true, rfl, by simp [h1.symm]⟩

/-- inversion for the write adapter: a returned result comes from a retry
loop exit, with the value determined by the success flag. -/
theorem at24_regmap_write_cases (mmc_mailbox : At24Data)
    (offset count entry timeoutJ : Nat) (ok : Nat → Bool)
    (times : Nat → Nat) (fuel : Nat) (r : Int) (k : Nat)
    (h : at24_regmap_write mmc_mailbox offset count entry timeoutJ
      ok times fuel = some (r, k)) :
    ∃ b, retryAttempts ok times (entry + timeoutJ) 0 fuel = some (k, b) ∧
      r = if b then (at24_adjust_write_count mmc_mailbox offset count : Int)
      else -ETIMEDOUT := by
  unfold at24_regmap_write at h
  rcases hr : retryAttempts ok times (entry + timeoutJ) 0 fuel with _ | ⟨k2, b⟩
  · rw [hr] at h; simp at h
  · rw [hr] at h
    cases b
    · obtain ⟨h1, h2⟩ : -ETIMEDOUT = r ∧ k2 = k := by
        injection h with h; injection h with h1 h2; exact ⟨h1, h2⟩
      subst h2
      exact ⟨false, rfl, by simp [h1.symm]⟩
    · obtain ⟨h1, h2⟩ :
          (at24_adjust_write_count mmc_mailbox offset count : Int) = r ∧
            k2 = k := by
        injection h with h; injection h with h1 h2; exact ⟨h1, h2⟩
      subst h2
      exact ⟨true, rfl, by simp [h1.symm]⟩

/-- a retry-loop exit satisfies the adapter contract for the value the
adapter derives from it. -/
theorem adapterContract_of_retry (adj entry timeoutJ : Nat)
    (ok : Nat → Bool) (times : Nat → Nat) (fuel k : Nat) (b : Bool)
    (h : retryAttempts ok times (entry + timeoutJ) 0 fuel = some (k, b)) :
    AdapterContract adj entry timeoutJ ok times
      (if b then (adj : Int) else -ETIMEDOUT) k := by
  obtain ⟨hk, hlast, hmid, hfail⟩ :=
    retryAttempts_spec ok times (entry + timeoutJ) fuel 0 k b h
  have hne : ¬ ((adj : Int) = -ETIMEDOUT) := by
    intro heq
    have : (0 : Int) ≤ (adj : Int) := Int.ofNat_nonneg adj
    rw [heq] at this
    simp [ETIMEDOUT] at this
  cases b
  · show AdapterContract adj entry timeoutJ ok times (-ETIMEDOUT) k
    refine ⟨by omega, ?_, ?_, fun i hi => hmid i (Nat.zero_le i) hi, ?_⟩
    · constructor
      · intro heq; exact absurd heq.symm hne
      · intro hok; rw [hok] at hlast; exact absurd hlast.symm (by simp)
    · constructor
      · intro _ i hi
        rcases Nat.lt_or_ge (i + 1) k with h1 | h1
        · exact (hmid i (Nat.zero_le i) h1).1
        · have hik : i = k - 1 := by omega
          rw [hik]; exact hlast
      · intro _; rfl
    · intro _; exact hfail rfl
  · show AdapterContract adj entry timeoutJ ok times ((adj : Nat) : Int) k
    refine ⟨by omega, ?_, ?_, fun i hi => hmid i (Nat.zero_le i) hi, ?_⟩
    · exact ⟨fun _ => hlast, fun _ => rfl⟩
    · constructor
      · intro heq; exact absurd heq hne
      · intro hall
        have hk1 := hall (k - 1) (by omega)
        rw [hk1] at hlast; exact absurd hlast (by simp)
    · intro heq; exact absurd heq hne

/-- C6: every result of the retrying transport adapter (read or write
variant) satisfies the retry contract: the per-attempt start time is the
one compared against the deadline, success returns the planned chunk
length at the first successful attempt, retries happen only while the
sampled attempt-start time was before the deadline, and `-ETIMEDOUT` is
returned if and only if no attempt succeeded. -/
theorem c6_adapter_retry_contract (io_limit : Nat) (mmc_mailbox : At24Data)
    (offset count entry timeoutJ : Nat) (ok : Nat → Bool)
    (times : Nat → Nat) (fuel : Nat) :
    (∀ r k, at24_regmap_read io_limit mmc_mailbox offset count entry
        timeoutJ ok times fuel = some (r, k) →
      AdapterContract (at24_adjust_read_count io_limit mmc_mailbox offset
        count) entry timeoutJ ok times r k) ∧
    (∀ r k, at24_regmap_write mmc_mailbox offset count entry timeoutJ ok
        times fuel = some (r, k) →
      AdapterContract (at24_adjust_write_count mmc_mailbox offset count)
        entry timeoutJ ok times r k) := by
  constructor
  · intro r k h
    obtain ⟨b, hb, hr⟩ := at24_regmap_read_cases io_limit mmc_mailbox offset
      count entry timeoutJ ok times fuel r k h
    rw [hr]
    exact adapterContract_of_retry _ entry timeoutJ ok times fuel k b hb
  · intro r k h
    obtain ⟨b, hb, hr⟩ := at24_regmap_write_cases mmc_mailbox offset count
      entry timeoutJ ok times fuel r k h
    rw [hr]
    exact adapterContract_of_retry _ entry timeoutJ ok times fuel k b hb

/-- witness for C6: a transport that succeeds on its third raw attempt
within the deadline makes the read adapter return the planned length 4
after 3 attempts, and that outcome satisfies the contract. -/
theorem c6_witness :
    at24_regmap_read 128 ⟨16, 2048, 16⟩ 0 4 0 25 (fun i => i == 2)
      (fun i => i) 10 = some (4, 3) ∧
    AdapterContract (at24_adjust_read_count 128 ⟨16, 2048, 16⟩ 0 4) 0 25
      (fun i => i == 2) (fun i => i) 4 3 :=
  ⟨by decide,
   (c6_adapter_retry_contract 128 ⟨16, 2048, 16⟩ 0 4 0 25 (fun i => i == 2)
     (fun i => i) 10).1 4 3 (by decide)⟩

/-- C10: both retrying adapters invoke the raw transport primitive at
least once whenever they return (k ≥ 1 raw attempts), and when the
deadline has already passed at entry (which covers a zero timeout budget)
they still make exactly one attempt, whose outcome alone decides the
result, because the attempt happens before the deadline is first
checked. -/
theorem c10_first_attempt_always_made (io_limit : Nat)
    (mmc_mailbox : At24Data) (offset count entry timeoutJ : Nat)
    (ok : Nat → Bool) (times : Nat → Nat) (fuel : Nat) (hf : 0 < fuel) :
    (∀ r k, at24_regmap_read io_limit mmc_mailbox offset count entry
        timeoutJ ok times fuel = some (r, k) → 1 ≤ k) ∧
    (∀ r k, at24_regmap_write mmc_mailbox offset count entry timeoutJ ok
        times fuel = some (r, k) → 1 ≤ k) ∧
    (entry + timeoutJ ≤ times 0 →
      at24_regmap_read io_limit mmc_mailbox offset count entry timeoutJ ok
        times fuel = some (if ok 0 then
          (at24_adjust_read_count io_limit mmc_mailbox offset count : Int)
          else -ETIMEDOUT, 1) ∧
      at24_regmap_write mmc_mailbox offset count entry timeoutJ ok times
        fuel = some (if ok 0 then
          (at24_adjust_write_count mmc_mailbox offset count : Int)
          else -ETIMEDOUT, 1)) := by
  obtain ⟨f, rfl⟩ : ∃ f, fuel = f + 1 := ⟨fuel - 1, by omega⟩
  refine ⟨?_, ?_, ?_⟩
  · intro r k h
    obtain ⟨b, hb, -⟩ := at24_regmap_read_cases io_limit mmc_mailbox offset
      count entry timeoutJ ok times (f + 1) r k h
    have := (retryAttempts_spec ok times (entry + timeoutJ) (f + 1) 0 k b
      hb).1
    omega
  · intro r k h
    obtain ⟨b, hb, -⟩ := at24_regmap_write_cases mmc_mailbox offset count
      entry timeoutJ ok times (f + 1) r k h
    have := (retryAttempts_spec ok times (entry + timeoutJ) (f + 1) 0 k b
      hb).1
    omega
  · intro hd
    have hstop : retryAttempts ok times (entry + timeoutJ) 0 (f + 1)
        = some (1, ok 0) := by
      rw [retryAttempts]
      cases h0 : ok 0
      · rw [if_neg (by simp [h0]), if_neg (by omega)]
      · rw [if_pos (by simp [h0])]
    cases h0 : ok 0
    · rw [h0] at hstop
      constructor
      · unfold at24_regmap_read
        rw [hstop]
        simp [h0]
      · unfold at24_regmap_write
        rw [hstop]
        simp [h0]
    · rw [h0] at hstop
      constructor
      · unfold at24_regmap_read
        rw [hstop]
        simp [h0]
      · unfold at24_regmap_write
        rw [hstop]
        simp [h0]

/-- witness for C10: with a zero timeout budget and an always-failing
transport, both adapters make exactly one raw attempt and report the
timeout. -/
theorem c10_witness :
    0 < 1 ∧
    at24_regmap_read 128 ⟨16, 2048, 16⟩ 0 4 0 0 (fun _ => false)
      (fun _ => 0) 1 = some (-ETIMEDOUT, 1) ∧
    at24_regmap_write ⟨16, 2048, 16⟩ 0 4 0 0 (fun _ => false)
      (fun _ => 0) 1 = some (-ETIMEDOUT, 1) :=
  ⟨by decide,
   ((c10_first_attempt_always_made 128 ⟨16, 2048, 16⟩ 0 4 0 0
      (fun _ => false) (fun _ => 0) 1 (by decide)).2.2 (by decide)).1,
   ((c10_first_attempt_always_made 128 ⟨16, 2048, 16⟩ 0 4 0 0
      (fun _ => false) (fun _ => 0) 1 (by decide)).2.2 (by decide)).2⟩

/-- every action of the read chunk loop is a data-chunk read lying inside
the requested range `[off, off + cnt)`; this rests on the chunk-loop
invariant that each iteration advances the offset and shrinks the
remaining count by the same transferred amount. -/
theorem readLoop_events (io_limit : Nat) (mmc_mailbox : At24Data)
    (oracle : Nat → Bool) :
    ∀ fuel j off cnt,
      ∀ e ∈ (readLoop io_limit mmc_mailbox oracle fuel j off cnt).2,
        ∃ o l, e = Event.dataRead o l ∧ off ≤ o ∧ o + l ≤ off + cnt := by
  intro fuel
  induction fuel with
  | zero =>
    intro j off cnt e he
    cases cnt with
    | zero => simp [readLoop] at he
    | succ c => simp [readLoop] at he
  | succ fuel ih =>
    intro j off cnt e he
    cases cnt with
    | zero => simp [readLoop] at he
    | succ c =>
      have hch := at24_adjust_read_count_le io_limit mmc_mailbox off (c + 1)
      rw [readLoop] at he
      by_cases hj : oracle j
      · rw [if_pos hj] at he
        rcases List.mem_cons.1 he with heq | htail
        · exact ⟨off, _, heq, Nat.le_refl off, by omega⟩
        · obtain ⟨o, l, heq, ho, hl⟩ := ih (j + 1)
            (off + at24_adjust_read_count io_limit mmc_mailbox off (c + 1))
            (c + 1 - at24_adjust_read_count io_limit mmc_mailbox off (c + 1))
            e htail
          exact ⟨o, l, heq, by omega, by omega⟩
      · rw [if_neg hj] at he
        rcases List.mem_singleton.1 he with heq
        exact ⟨off, _, heq, Nat.le_refl off, by omega⟩

/-- every action of the write chunk loop is a data-chunk write lying
inside the requested range `[off, off + cnt)`. -/
theorem writeLoop_events (mmc_mailbox : At24Data) (oracle : Nat → Bool) :
    ∀ fuel j off cnt,
      ∀ e ∈ (writeLoop mmc_mailbox oracle fuel j off cnt).2,
        ∃ o l, e = Event.dataWrite o l ∧ off ≤ o ∧ o + l ≤ off + cnt := by
  intro fuel
  induction fuel with
  | zero =>
    intro j off cnt e he
    cases cnt with
    | zero => simp [writeLoop] at he
    | succ c => simp [writeLoop] at he
  | succ fuel ih =>
    intro j off cnt e he
    cases cnt with
    | zero => simp [writeLoop] at he
    | succ c =>
      have hch := at24_adjust_write_count_le mmc_mailbox off (c + 1)
      rw [writeLoop] at he
      by_cases hj : oracle j
      · rw [if_pos hj] at he
        rcases List.mem_cons.1 he with heq | htail
        · exact ⟨off, _, heq, Nat.le_refl off, by omega⟩
        · obtain ⟨o, l, heq, ho, hl⟩ := ih (j + 1)
            (off + at24_adjust_write_count mmc_mailbox off (c + 1))
            (c + 1 - at24_adjust_write_count mmc_mailbox off (c + 1))
            e htail
          exact ⟨o, l, heq, by omega, by omega⟩
      · rw [if_neg hj] at he
        rcases List.mem_singleton.1 he with heq
        exact ⟨off, _, heq, Nat.le_refl off, by omega⟩

/-- the read chunk loop exits either successfully or with `-ETIMEDOUT`
(or the `-999` fuel sentinel, unreachable for the fuel the engine
passes). -/
theorem readLoop_result (io_limit : Nat) (mmc_mailbox : At24Data)
    (oracle : Nat → Bool) :
    ∀ fuel j off cnt,
      (readLoop io_limit mmc_mailbox oracle fuel j off cnt).1 = none ∨
      (readLoop io_limit mmc_mailbox oracle fuel j off cnt).1
        = some (-ETIMEDOUT) ∨
      (readLoop io_limit mmc_mailbox oracle fuel j off cnt).1
        = some (-999) := by
  intro fuel
  induction fuel with
  | zero =>
    intro j off cnt
    cases cnt with
    | zero => left; rfl
    | succ c => right; right; rfl
  | succ fuel ih =>
    intro j off cnt
    cases cnt with
    | zero => left; rfl
    | succ c =>
      rw [readLoop]
      by_cases hj : oracle j
      · rw [if_pos hj]
        exact ih (j + 1) _ _
      · rw [if_neg hj]
        right; left; rfl

/-- the write chunk loop exits either successfully or with `-ETIMEDOUT`
(or the `-999` fuel sentinel, unreachable for the fuel the engine
passes). -/
theorem writeLoop_result (mmc_mailbox : At24Data) (oracle : Nat → Bool) :
    ∀ fuel j off cnt,
      (writeLoop mmc_mailbox oracle fuel j off cnt).1 = none ∨
      (writeLoop mmc_mailbox oracle fuel j off cnt).1
        = some (-ETIMEDOUT) ∨
      (writeLoop mmc_mailbox oracle fuel j off cnt).1 = some (-999) := by
  intro fuel
  induction fuel with
  | zero =>
    intro j off cnt
    cases cnt with
    | zero => left; rfl
    | succ c => right; right; rfl
  | succ fuel ih =>
    intro j off cnt
    cases cnt with
    | zero => left; rfl
    | succ c =>
      rw [writeLoop]
      by_cases hj : oracle j
      · rw [if_pos hj]
        exact ih (j + 1) _ _
      · rw [if_neg hj]
        right; left; rfl

/-- trace shape of a validated `at24_read` call: the mutex is taken, the
lock protocol runs, the chunk loop contributes its actions, the lock is
cleared only on full success, and the mutex is released last. -/
theorem at24_read_shape (io_limit : Nat) (mmc_mailbox : At24Data)
    (oracle : Nat → Bool) (off count : Nat) (h0 : count ≠ 0)
    (hb : ¬(off + count > mmc_mailbox.byte_len)) :
    (∃ e, (readLoop io_limit mmc_mailbox oracle count 0 off count).1
        = some e ∧
      at24_read io_limit mmc_mailbox oracle off count =
        (e, Event.mutexLock :: (lock_if_multiple count).2
          ++ (readLoop io_limit mmc_mailbox oracle count 0 off count).2
          ++ [Event.mutexUnlock])) ∨
    ((readLoop io_limit mmc_mailbox oracle count 0 off count).1 = none ∧
      at24_read io_limit mmc_mailbox oracle off count =
        (0, Event.mutexLock :: (lock_if_multiple count).2
          ++ (readLoop io_limit mmc_mailbox oracle count 0 off count).2
          ++ unlock_if_locked (lock_if_multiple count).1
          ++ [Event.mutexUnlock])) := by
  unfold at24_read
  rw [if_neg h0, if_neg hb]
  dsimp only
  rcases hlp : (readLoop io_limit mmc_mailbox oracle count 0 off count).1
    with _ | e
  · right; exact ⟨rfl, rfl⟩
  · left; exact ⟨e, rfl, rfl⟩

/-- trace shape of a validated `at24_write` call, mirroring
`at24_read_shape`. -/
theorem at24_write_shape (mmc_mailbox : At24Data) (oracle : Nat → Bool)
    (off count : Nat) (h0 : count ≠ 0)
    (hb : ¬(off + count > mmc_mailbox.byte_len)) :
    (∃ e, (writeLoop mmc_mailbox oracle count 0 off count).1 = some e ∧
      at24_write mmc_mailbox oracle off count =
        (e, Event.mutexLock :: (lock_if_multiple count).2
          ++ (writeLoop mmc_mailbox oracle count 0 off count).2
          ++ [Event.mutexUnlock])) ∨
    ((writeLoop mmc_mailbox oracle count 0 off count).1 = none ∧
      at24_write mmc_mailbox oracle off count =
        (0, Event.mutexLock :: (lock_if_multiple count).2
          ++ (writeLoop mmc_mailbox oracle count 0 off count).2
          ++ unlock_if_locked (lock_if_multiple count).1
          ++ [Event.mutexUnlock])) := by
  unfold at24_write
  rw [if_neg h0, if_neg hb]
  dsimp only
  rcases hlp : (writeLoop mmc_mailbox oracle count 0 off count).1
    with _ | e
  · right; exact ⟨rfl, rfl⟩
  · left; exact ⟨e, rfl, rfl⟩

/-- decomposition of engine traces: an element is the mutex-lock marker,
a lock-protocol action, a chunk-loop action, or part of the tail. -/
theorem engine_trace_mem (lk2 lp2 tail : List Event) (e : Event)
    (he : e ∈ Event.mutexLock :: lk2 ++ lp2 ++ tail) :
    e = Event.mutexLock ∨ e ∈ lk2 ∨ e ∈ lp2 ∨ e ∈ tail := by
  simp only [List.mem_cons, List.mem_append] at he
  tauto

/-- decomposition of success-path engine traces, whose tail carries both
the unlock actions and the mutex release. -/
theorem engine_trace_mem4 (lk2 lp2 unk tail : List Event) (e : Event)
    (he : e ∈ Event.mutexLock :: lk2 ++ lp2 ++ unk ++ tail) :
    e = Event.mutexLock ∨ e ∈ lk2 ∨ e ∈ lp2 ∨ e ∈ unk ∨ e ∈ tail := by
  simp only [List.mem_cons, List.mem_append] at he
  tauto

/-- every action of `lock_if_multiple` is the lock-set control write. -/
theorem lock_if_multiple_events (count : Nat) (e : Event)
    (he : e ∈ (lock_if_multiple count).2) :
    e = Event.ctrlWrite MB_LOCK_OFFS MB_LOCK_FLAG := by
  unfold lock_if_multiple at he
  by_cases h : count ≤ 1
  · rw [if_pos h] at he; simp at he
  · rw [if_neg h] at he; simpa using he

/-- every action of `unlock_if_locked` is the lock-clear control write. -/
theorem unlock_if_locked_events (locked : Bool) (e : Event)
    (he : e ∈ unlock_if_locked locked) :
    e = Event.ctrlWrite MB_LOCK_OFFS 0 := by
  unfold unlock_if_locked at he
  cases locked
  · simp at he
  · simpa using he

/-- a multi-byte count takes the page lock with one lock-set write. -/
theorem lock_if_multiple_of_gt (count : Nat) (h : 1 < count) :
    lock_if_multiple count =
      (true, [Event.ctrlWrite MB_LOCK_OFFS MB_LOCK_FLAG]) := by
  unfold lock_if_multiple
  rw [if_neg (by omega)]

/-- a single-byte count takes no page lock and writes nothing. -/
theorem lock_if_multiple_of_le (count : Nat) (h : count ≤ 1) :
    lock_if_multiple count = (false, []) := by
  unfold lock_if_multiple
  rw [if_pos h]

/-- C9: every data-chunk transport call issued by `at24_read` or
`at24_write` lies entirely inside the requested range
`[off, off + count)`; this is the chunk-loop invariant that the offset
advances and the remaining count shrinks by exactly the transferred
amount, keeping their sum constant. -/
theorem c9_chunks_stay_in_range (io_limit : Nat) (mmc_mailbox : At24Data)
    (oracle : Nat → Bool) (off count : Nat) :
    (∀ e ∈ (at24_read io_limit mmc_mailbox oracle off count).2,
      ∀ o l, e = Event.dataRead o l → off ≤ o ∧ o + l ≤ off + count) ∧
    (∀ e ∈ (at24_write mmc_mailbox oracle off count).2,
      ∀ o l, e = Event.dataWrite o l → off ≤ o ∧ o + l ≤ off + count) := by
  constructor
  · intro e he o l heq
    by_cases h0 : count = 0
    · subst h0
      simp [at24_read] at he
    · by_cases hb : off + count > mmc_mailbox.byte_len
      · unfold at24_read at he
        rw [if_neg h0, if_pos hb] at he
        simp at he
      · have hloop := readLoop_events io_limit mmc_mailbox oracle count 0
          off count
        rcases at24_read_shape io_limit mmc_mailbox oracle off count h0 hb
          with ⟨er, hlp, heqr⟩ | ⟨hlp, heqr⟩ <;> rw [heqr] at he <;>
          subst heq
        · rcases engine_trace_mem _ _ _ _ he with h1 | h1 | h1 | h1
          · exact absurd h1 (by simp)
          · exact absurd (lock_if_multiple_events count _ h1) (by simp)
          · obtain ⟨o2, l2, heq2, ho, hl⟩ := hloop _ h1
            obtain ⟨rfl, rfl⟩ : o = o2 ∧ l = l2 := by
              injection heq2 with h2 h3; exact ⟨h2, h3⟩
            exact ⟨ho, hl⟩
          · rcases List.mem_singleton.1 h1 with h1
            exact absurd h1 (by simp)
        · rcases engine_trace_mem4 _ _ _ _ _ he with h1 | h1 | h1 | h1 | h1
          · exact absurd h1 (by simp)
          · exact absurd (lock_if_multiple_events count _ h1) (by simp)
          · obtain ⟨o2, l2, heq2, ho, hl⟩ := hloop _ h1
            obtain ⟨rfl, rfl⟩ : o = o2 ∧ l = l2 := by
              injection heq2 with h2 h3; exact ⟨h2, h3⟩
            exact ⟨ho, hl⟩
          · exact absurd (unlock_if_locked_events _ _ h1) (by simp)
          · rcases List.mem_singleton.1 h1 with h1
            exact absurd h1 (by simp)
  · intro e he o l heq
    by_cases h0 : count = 0
    · subst h0
      simp [at24_write] at he
    · by_cases hb : off + count > mmc_mailbox.byte_len
      · unfold at24_write at he
        rw [if_neg h0, if_pos hb] at he
        simp at he
      · have hloop := writeLoop_events mmc_mailbox oracle count 0 off count
        rcases at24_write_shape mmc_mailbox oracle off count h0 hb
          with ⟨er, hlp, heqr⟩ | ⟨hlp, heqr⟩ <;> rw [heqr] at he <;>
          subst heq
        · rcases engine_trace_mem _ _ _ _ he with h1 | h1 | h1 | h1
          · exact absurd h1 (by simp)
          · exact absurd (lock_if_multiple_events count _ h1) (by simp)
          · obtain ⟨o2, l2, heq2, ho, hl⟩ := hloop _ h1
            obtain ⟨rfl, rfl⟩ : o = o2 ∧ l = l2 := by
              injection heq2 with h2 h3; exact ⟨h2, h3⟩
            exact ⟨ho, hl⟩
          · rcases List.mem_singleton.1 h1 with h1
            exact absurd h1 (by simp)
        · rcases engine_trace_mem4 _ _ _ _ _ he with h1 | h1 | h1 | h1 | h1
          · exact absurd h1 (by simp)
          · exact absurd (lock_if_multiple_events count _ h1) (by simp)
          · obtain ⟨o2, l2, heq2, ho, hl⟩ := hloop _ h1
            obtain ⟨rfl, rfl⟩ : o = o2 ∧ l = l2 := by
              injection heq2 with h2 h3; exact ⟨h2, h3⟩
            exact ⟨ho, hl⟩
          · exact absurd (unlock_if_locked_events _ _ h1) (by simp)
          · rcases List.mem_singleton.1 h1 with h1
            exact absurd h1 (by simp)

/-- witness for C9: in the two-chunk write starting at offset 10 with
count 12, the second chunk `dataWrite 16 6` stays inside `[10, 22)`. -/
theorem c9_witness :
    Event.dataWrite 16 6 ∈
      (at24_write ⟨16, 2048, 16⟩ (fun _ => true) 10 12).2 ∧
    10 ≤ 16 ∧ 16 + 6 ≤ 10 + 12 :=
  ⟨by decide,
   (c9_chunks_stay_in_range 128 ⟨16, 2048, 16⟩ (fun _ => true) 10 12).2
     (Event.dataWrite 16 6) (by decide) 16 6 rfl⟩

/-- C2: on a validated call with count > 1, exactly one lock-set control
write (`MB_LOCK_FLAG` to `MB_LOCK_OFFS`) precedes the data chunks and, on
success (result 0), exactly one lock-clear control write (`0` to
`MB_LOCK_OFFS`) follows them; a call with count ≤ 1 performs no control
write to `MB_LOCK_OFFS` at all. -/
theorem c2_lock_bracketing (io_limit : Nat) (mmc_mailbox : At24Data)
    (oracle : Nat → Bool) (off count : Nat) :
    (1 < count → off + count ≤ mmc_mailbox.byte_len →
      ((∀ r evs, at24_read io_limit mmc_mailbox oracle off count
          = (r, evs) →
        ∃ ds, (∀ e ∈ ds, ∃ o l, e = Event.dataRead o l) ∧
          evs = Event.mutexLock ::
            Event.ctrlWrite MB_LOCK_OFFS MB_LOCK_FLAG :: ds
            ++ (if r = 0 then
                [Event.ctrlWrite MB_LOCK_OFFS 0, Event.mutexUnlock]
              else [Event.mutexUnlock])) ∧
      (∀ r evs, at24_write mmc_mailbox oracle off count = (r, evs) →
        ∃ ds, (∀ e ∈ ds, ∃ o l, e = Event.dataWrite o l) ∧
          evs = Event.mutexLock ::
            Event.ctrlWrite MB_LOCK_OFFS MB_LOCK_FLAG :: ds
            ++ (if r = 0 then
                [Event.ctrlWrite MB_LOCK_OFFS 0, Event.mutexUnlock]
              else [Event.mutexUnlock])))) ∧
    (count ≤ 1 →
      (∀ v, Event.ctrlWrite MB_LOCK_OFFS v ∉
        (at24_read io_limit mmc_mailbox oracle off count).2) ∧
      (∀ v, Event.ctrlWrite MB_LOCK_OFFS v ∉
        (at24_write mmc_mailbox oracle off count).2)) := by
  constructor
  · intro h1 hb
    have h0 : count ≠ 0 := by omega
    have hb2 : ¬(off + count > mmc_mailbox.byte_len) := by omega
    constructor
    · intro r evs h
      rcases at24_read_shape io_limit mmc_mailbox oracle off count h0 hb2
        with ⟨e, hlp, heqr⟩ | ⟨hlp, heqr⟩
      · rw [h] at heqr
        obtain ⟨hre, hevs⟩ : r = e ∧ evs = _ := by
          injection heqr with ha hb3; exact ⟨ha, hb3⟩
        have hr0 : r ≠ 0 := by
          rcases readLoop_result io_limit mmc_mailbox oracle count 0 off
            count with hn | he2 | he2
          · rw [hlp] at hn; exact absurd hn (by simp)
          · rw [hlp] at he2
            have he3 := Option.some.inj he2
            rw [hre, he3]; decide
          · rw [hlp] at he2
            have he3 := Option.some.inj he2
            rw [hre, he3]; decide
        refine ⟨(readLoop io_limit mmc_mailbox oracle count 0 off count).2,
          ?_, ?_⟩
        · intro e2 he2
          obtain ⟨o, l, heq, -, -⟩ := readLoop_events io_limit mmc_mailbox
            oracle count 0 off count e2 he2
          exact ⟨o, l, heq⟩
        · rw [hevs, lock_if_multiple_of_gt count h1, if_neg hr0]
          rfl
      · rw [h] at heqr
        obtain ⟨hre, hevs⟩ : r = 0 ∧ evs = _ := by
          injection heqr with ha hb3; exact ⟨ha, hb3⟩
        refine ⟨(readLoop io_limit mmc_mailbox oracle count 0 off count).2,
          ?_, ?_⟩
        · intro e2 he2
          obtain ⟨o, l, heq, -, -⟩ := readLoop_events io_limit mmc_mailbox
            oracle count 0 off count e2 he2
          exact ⟨o, l, heq⟩
        · rw [hevs, hre, lock_if_multiple_of_gt count h1, if_pos rfl]
          simp [unlock_if_locked, List.append_assoc]
    · intro r evs h
      rcases at24_write_shape mmc_mailbox oracle off count h0 hb2
        with ⟨e, hlp, heqr⟩ | ⟨hlp, heqr⟩
      · rw [h] at heqr
        obtain ⟨hre, hevs⟩ : r = e ∧ evs = _ := by
          injection heqr with ha hb3; exact ⟨ha, hb3⟩
        have hr0 : r ≠ 0 := by
          rcases writeLoop_result mmc_mailbox oracle count 0 off count
            with hn | he2 | he2
          · rw [hlp] at hn; exact absurd hn (by simp)
          · rw [hlp] at he2
            have he3 := Option.some.inj he2
            rw [hre, he3]; decide
          · rw [hlp] at he2
            have he3 := Option.some.inj he2
            rw [hre, he3]; decide
        refine ⟨(writeLoop mmc_mailbox oracle count 0 off count).2, ?_, ?_⟩
        · intro e2 he2
          obtain ⟨o, l, heq, -, -⟩ := writeLoop_events mmc_mailbox oracle
            count 0 off count e2 he2
          exact ⟨o, l, heq⟩
        · rw [hevs, lock_if_multiple_of_gt count h1, if_neg hr0]
          rfl
      · rw [h] at heqr
        obtain ⟨hre, hevs⟩ : r = 0 ∧ evs = _ := by
          injection heqr with ha hb3; exact ⟨ha, hb3⟩
        refine ⟨(writeLoop mmc_mailbox oracle count 0 off count).2, ?_, ?_⟩
        · intro e2 he2
          obtain ⟨o, l, heq, -, -⟩ := writeLoop_events mmc_mailbox oracle
            count 0 off count e2 he2
          exact ⟨o, l, heq⟩
        · rw [hevs, hre, lock_if_multiple_of_gt count h1, if_pos rfl]
          simp [unlock_if_locked, List.append_assoc]
  · intro hle
    constructor
    · intro v hmem
      by_cases h0 : count = 0
      · subst h0; simp [at24_read] at hmem
      · by_cases hb : off + count > mmc_mailbox.byte_len
        · unfold at24_read at hmem
          rw [if_neg h0, if_pos hb] at hmem
          simp at hmem
        · rcases at24_read_shape io_limit mmc_mailbox oracle off count h0
            hb with ⟨e, hlp, heqr⟩ | ⟨hlp, heqr⟩ <;>
            rw [heqr, lock_if_multiple_of_le count hle] at hmem
          · rcases engine_trace_mem _ _ _ _ hmem with h2 | h2 | h2 | h2
            · exact absurd h2 (by simp)
            · simp at h2
            · obtain ⟨o, l, heq, -, -⟩ := readLoop_events io_limit
                mmc_mailbox oracle count 0 off count _ h2
              simp at heq
            · rcases List.mem_singleton.1 h2 with h2
              exact absurd h2 (by simp)
          · rcases engine_trace_mem4 _ _ _ _ _ hmem with
              h2 | h2 | h2 | h2 | h2
            · exact absurd h2 (by simp)
            · simp at h2
            · obtain ⟨o, l, heq, -, -⟩ := readLoop_events io_limit
                mmc_mailbox oracle count 0 off count _ h2
              simp at heq
            · simp [unlock_if_locked] at h2
            · rcases List.mem_singleton.1 h2 with h2
              exact absurd h2 (by simp)
    · intro v hmem
      by_cases h0 : count = 0
      · subst h0; simp [at24_write] at hmem
      · by_cases hb : off + count > mmc_mailbox.byte_len
        · unfold at24_write at hmem
          rw [if_neg h0, if_pos hb] at hmem
          simp at hmem
        · rcases at24_write_shape mmc_mailbox oracle off count h0 hb
            with ⟨e, hlp, heqr⟩ | ⟨hlp, heqr⟩ <;>
            rw [heqr, lock_if_multiple_of_le count hle] at hmem
          · rcases engine_trace_mem _ _ _ _ hmem with h2 | h2 | h2 | h2
            · exact absurd h2 (by simp)
            · simp at h2
            · obtain ⟨o, l, heq, -, -⟩ := writeLoop_events mmc_mailbox
                oracle count 0 off count _ h2
              simp at heq
            · rcases List.mem_singleton.1 h2 with h2
              exact absurd h2 (by simp)
          · rcases engine_trace_mem4 _ _ _ _ _ hmem with
              h2 | h2 | h2 | h2 | h2
            · exact absurd h2 (by simp)
            · simp at h2
            · obtain ⟨o, l, heq, -, -⟩ := writeLoop_events mmc_mailbox
                oracle count 0 off count _ h2
              simp at heq
            · simp [unlock_if_locked] at h2
            · rcases List.mem_singleton.1 h2 with h2
              exact absurd h2 (by simp)

/-- witness for C2: the two-chunk write at offset 10 with count 12
succeeds and its trace is bracketed by the single lock-set and lock-clear
control writes. -/
theorem c2_witness :
    ((1 : Nat) < 12 ∧ 10 + 12 ≤ (At24Data.mk 16 2048 16).byte_len) ∧
    (∃ ds, (∀ e ∈ ds, ∃ o l, e = Event.dataWrite o l) ∧
      [Event.mutexLock, Event.ctrlWrite MB_LOCK_OFFS MB_LOCK_FLAG,
       Event.dataWrite 10 6, Event.dataWrite 16 6,
       Event.ctrlWrite MB_LOCK_OFFS 0, Event.mutexUnlock]
        = Event.mutexLock :: Event.ctrlWrite MB_LOCK_OFFS MB_LOCK_FLAG ::
          ds ++ (if (0 : Int) = 0 then
              [Event.ctrlWrite MB_LOCK_OFFS 0, Event.mutexUnlock]
            else [Event.mutexUnlock])) :=
  ⟨⟨by decide, by decide⟩,
   ((c2_lock_bracketing 128 ⟨16, 2048, 16⟩ (fun _ => true) 10 12).1
     (by decide) (by decide)).2 0
     [Event.mutexLock, Event.ctrlWrite MB_LOCK_OFFS MB_LOCK_FLAG,
      Event.dataWrite 10 6, Event.dataWrite 16 6,
      Event.ctrlWrite MB_LOCK_OFFS 0, Event.mutexUnlock] (by decide)⟩

/-- C1 (amended): when a chunk transfer fails, both engine entry points
release the serialization lock (the trace ends with the mutex-release
action) and return the chunk error `-ETIMEDOUT` to the caller, but they do
NOT issue the lock-clear control write even when the page lock was taken:
the error path of the C source skips `unlock_if_locked`, leaving the
page-lock flag set. -/
theorem c1_error_releases_mutex_not_page_lock (io_limit : Nat)
    (mmc_mailbox : At24Data) (oracle : Nat → Bool) (off count : Nat) :
    (∀ evs, at24_read io_limit mmc_mailbox oracle off count
        = (-ETIMEDOUT, evs) →
      Event.ctrlWrite MB_LOCK_OFFS 0 ∉ evs ∧
      ∃ ds, (∀ e ∈ ds, ∃ o l, e = Event.dataRead o l) ∧
        (evs = Event.mutexLock ::
            Event.ctrlWrite MB_LOCK_OFFS MB_LOCK_FLAG :: ds
            ++ [Event.mutexUnlock] ∨
         evs = Event.mutexLock :: ds ++ [Event.mutexUnlock])) ∧
    (∀ evs, at24_write mmc_mailbox oracle off count = (-ETIMEDOUT, evs) →
      Event.ctrlWrite MB_LOCK_OFFS 0 ∉ evs ∧
      ∃ ds, (∀ e ∈ ds, ∃ o l, e = Event.dataWrite o l) ∧
        (evs = Event.mutexLock ::
            Event.ctrlWrite MB_LOCK_OFFS MB_LOCK_FLAG :: ds
            ++ [Event.mutexUnlock] ∨
         evs = Event.mutexLock :: ds ++ [Event.mutexUnlock])) := by
  constructor
  · intro evs h
    by_cases h0 : count = 0
    · subst h0
      exfalso
      have hfst := congrArg Prod.fst h
      simp [at24_read, ETIMEDOUT] at hfst
    · by_cases hb : off + count > mmc_mailbox.byte_len
      · exfalso
        unfold at24_read at h
        rw [if_neg h0, if_pos hb] at h
        have hfst := congrArg Prod.fst h
        simp [EINVAL, ETIMEDOUT] at hfst
      · rcases at24_read_shape io_limit mmc_mailbox oracle off count h0 hb
          with ⟨e, hlp, heqr⟩ | ⟨hlp, heqr⟩
        · rw [h] at heqr
          obtain ⟨hre, hevs⟩ : -ETIMEDOUT = e ∧ evs = _ := by
            injection heqr with ha hb3; exact ⟨ha, hb3⟩
          constructor
          · intro hmem
            rw [hevs] at hmem
            rcases engine_trace_mem _ _ _ _ hmem with h2 | h2 | h2 | h2
            · simp at h2
            · have h3 := lock_if_multiple_events count _ h2
              simp [MB_LOCK_FLAG] at h3
            · obtain ⟨o, l, heq, -, -⟩ := readLoop_events io_limit
                mmc_mailbox oracle count 0 off count _ h2
              simp at heq
            · rcases List.mem_singleton.1 h2 with h2
              simp at h2
          · refine ⟨(readLoop io_limit mmc_mailbox oracle count 0 off
              count).2, ?_, ?_⟩
            · intro e2 he2
              obtain ⟨o, l, heq, -, -⟩ := readLoop_events io_limit
                mmc_mailbox oracle count 0 off count e2 he2
              exact ⟨o, l, heq⟩
            · by_cases hcnt : count ≤ 1
              · right
                rw [hevs, lock_if_multiple_of_le count hcnt]
                rfl
              · left
                rw [hevs, lock_if_multiple_of_gt count (by omega)]
                rfl
        · exfalso
          rw [h] at heqr
          have hfst := congrArg Prod.fst heqr
          simp [ETIMEDOUT] at hfst
  · intro evs h
    by_cases h0 : count = 0
    · subst h0
      exfalso
      have hfst := congrArg Prod.fst h
      simp [at24_write, EINVAL, ETIMEDOUT] at hfst
    · by_cases hb : off + count > mmc_mailbox.byte_len
      · exfalso
        unfold at24_write at h
        rw [if_neg h0, if_pos hb] at h
        have hfst := congrArg Prod.fst h
        simp [EINVAL, ETIMEDOUT] at hfst
      · rcases at24_write_shape mmc_mailbox oracle off count h0 hb
          with ⟨e, hlp, heqr⟩ | ⟨hlp, heqr⟩
        · rw [h] at heqr
          obtain ⟨hre, hevs⟩ : -ETIMEDOUT = e ∧ evs = _ := by
            injection heqr with ha hb3; exact ⟨ha, hb3⟩
          constructor
          · intro hmem
            rw [hevs] at hmem
            rcases engine_trace_mem _ _ _ _ hmem with h2 | h2 | h2 | h2
            · simp at h2
            · have h3 := lock_if_multiple_events count _ h2
              simp [MB_LOCK_FLAG] at h3
            · obtain ⟨o, l, heq, -, -⟩ := writeLoop_events mmc_mailbox
                oracle count 0 off count _ h2
              simp at heq
            · rcases List.mem_singleton.1 h2 with h2
              simp at h2
          · refine ⟨(writeLoop mmc_mailbox oracle count 0 off count).2,
              ?_, ?_⟩
            · intro e2 he2
              obtain ⟨o, l, heq, -, -⟩ := writeLoop_events mmc_mailbox
                oracle count 0 off count e2 he2
              exact ⟨o, l, heq⟩
            · by_cases hcnt : count ≤ 1
              · right
                rw [hevs, lock_if_multiple_of_le count hcnt]
                rfl
              · left
                rw [hevs, lock_if_multiple_of_gt count (by omega)]
                rfl
        · exfalso
          rw [h] at heqr
          have hfst := congrArg Prod.fst heqr
          simp [ETIMEDOUT] at hfst

/-- counterexample for C1 as frozen: a multi-byte read whose first chunk
times out takes the page lock, fails, and releases the mutex, yet no
lock-clear control write (`0` to `MB_LOCK_OFFS`) ever appears in the
trace. -/
theorem c1_counterexample :
    at24_read 128 ⟨16, 2048, 16⟩ (fun _ => false) 0 4 =
      (-ETIMEDOUT,
       [Event.mutexLock, Event.ctrlWrite MB_LOCK_OFFS MB_LOCK_FLAG,
        Event.dataRead 0 4, Event.mutexUnlock]) ∧
    Event.ctrlWrite MB_LOCK_OFFS MB_LOCK_FLAG ∈
      (at24_read 128 ⟨16, 2048, 16⟩ (fun _ => false) 0 4).2 ∧
    Event.ctrlWrite MB_LOCK_OFFS 0 ∉
      (at24_read 128 ⟨16, 2048, 16⟩ (fun _ => false) 0 4).2 :=
  ⟨by decide, by decide, by decide⟩

/-- witness for C1 (amended) at the same failing read. -/
theorem c1_witness :
    Event.ctrlWrite MB_LOCK_OFFS 0 ∉
      [Event.mutexLock, Event.ctrlWrite MB_LOCK_OFFS MB_LOCK_FLAG,
       Event.dataRead 0 4, Event.mutexUnlock] ∧
    ∃ ds, (∀ e ∈ ds, ∃ o l, e = Event.dataRead o l) ∧
      ([Event.mutexLock, Event.ctrlWrite MB_LOCK_OFFS MB_LOCK_FLAG,
        Event.dataRead 0 4, Event.mutexUnlock]
          = Event.mutexLock ::
            Event.ctrlWrite MB_LOCK_OFFS MB_LOCK_FLAG :: ds
            ++ [Event.mutexUnlock] ∨
       [Event.mutexLock, Event.ctrlWrite MB_LOCK_OFFS MB_LOCK_FLAG,
        Event.dataRead 0 4, Event.mutexUnlock]
          = Event.mutexLock :: ds ++ [Event.mutexUnlock]) :=
  (c1_error_releases_mutex_not_page_lock 128 ⟨16, 2048, 16⟩
    (fun _ => false) 0 4).1 _ (by decide)

/-- C4 (amended): for every out-of-range request (`off + count` past
`byte_len`), the write entry point always returns `-EINVAL` with an empty
trace, and the read entry point does so whenever count > 0; a zero-length
read returns success with an empty trace even when the offset is out of
range. -/
theorem c4_out_of_range_rejected (io_limit : Nat) (mmc_mailbox : At24Data)
    (oracle : Nat → Bool) (off count : Nat)
    (hb : mmc_mailbox.byte_len < off + count) :
    (count ≠ 0 →
      at24_read io_limit mmc_mailbox oracle off count = (-EINVAL, [])) ∧
    at24_write mmc_mailbox oracle off count = (-EINVAL, []) ∧
    (count = 0 →
      at24_read io_limit mmc_mailbox oracle off count = (0, [])) := by
  refine ⟨?_, ?_, ?_⟩
  · intro h0
    unfold at24_read
    rw [if_neg h0, if_pos (by omega)]
  · by_cases h0 : count = 0
    · unfold at24_write
      rw [if_pos h0]
    · unfold at24_write
      rw [if_neg h0, if_pos (by omega)]
  · intro h0
    unfold at24_read
    rw [if_pos h0]

/-- counterexample for C4 as frozen: a zero-length read at offset 3000 is
out of range (3000 + 0 > 2048) yet returns success, not
`InvalidArgument`. -/
theorem c4_counterexample :
    (At24Data.mk 16 2048 16).byte_len < 3000 + 0 ∧
    at24_read 128 ⟨16, 2048, 16⟩ (fun _ => true) 3000 0 = (0, []) ∧
    (0 : Int) ≠ -EINVAL :=
  ⟨by decide, by decide, by decide⟩

/-- witness for C4 (amended) at offset 3000, count 4 on a 2048-byte
region. -/
theorem c4_witness :
    (At24Data.mk 16 2048 16).byte_len < 3000 + 4 ∧
    at24_read 128 ⟨16, 2048, 16⟩ (fun _ => true) 3000 4
      = (-EINVAL, []) ∧
    at24_write ⟨16, 2048, 16⟩ (fun _ => true) 3000 4 = (-EINVAL, []) :=
  ⟨by decide,
   (c4_out_of_range_rejected 128 ⟨16, 2048, 16⟩ (fun _ => true) 3000 4
     (by decide)).1 (by decide),
   (c4_out_of_range_rejected 128 ⟨16, 2048, 16⟩ (fun _ => true) 3000 4
     (by decide)).2.1⟩

/-- C3: for every offset, count > 0, page_size > 0 and write_max > 0, the
write planner returns a length L with 0 < L, L ≤ roundup(offset+1,
page_size) - offset (hence offset + L never crosses a page boundary) and
L ≤ min(count, write_max). -/
theorem c3_write_planner_in_bounds (mmc_mailbox : At24Data)
    (offset count : Nat) (hc : 0 < count) (hp : 0 < mmc_mailbox.page_size)
    (hw : 0 < mmc_mailbox.write_max) :
    0 < at24_adjust_write_count mmc_mailbox offset count ∧
    at24_adjust_write_count mmc_mailbox offset count ≤
      roundup (offset + 1) mmc_mailbox.page_size - offset ∧
    offset + at24_adjust_write_count mmc_mailbox offset count ≤
      roundup (offset + 1) mmc_mailbox.page_size ∧
    at24_adjust_write_count mmc_mailbox offset count ≤
      min count mmc_mailbox.write_max := by
  have hnp : offset + 1 ≤ roundup (offset + 1) mmc_mailbox.page_size :=
    roundup_ge _ _ hp
  unfold at24_adjust_write_count
  dsimp only
  split <;> split <;> omega

/-- witness for C3 at offset 10, count 12, page_size 16, write_max 16. -/
theorem c3_witness :
    0 < 12 ∧ 0 < (At24Data.mk 16 2048 16).page_size ∧
      0 < (At24Data.mk 16 2048 16).write_max ∧
      (0 < at24_adjust_write_count ⟨16, 2048, 16⟩ 10 12 ∧
       at24_adjust_write_count ⟨16, 2048, 16⟩ 10 12 ≤
         roundup (10 + 1) (At24Data.mk 16 2048 16).page_size - 10 ∧
       10 + at24_adjust_write_count ⟨16, 2048, 16⟩ 10 12 ≤
         roundup (10 + 1) (At24Data.mk 16 2048 16).page_size ∧
       at24_adjust_write_count ⟨16, 2048, 16⟩ 10 12 ≤
         min 12 (At24Data.mk 16 2048 16).write_max) :=
  ⟨by decide, by decide, by decide,
   c3_write_planner_in_bounds ⟨16, 2048, 16⟩ 10 12 (by decide) (by decide)
     (by decide)⟩

/-- C5: for every session, oracle and offset, a zero-length write returns
`-EINVAL` while a zero-length read returns success, both with an empty
action trace (no transport calls). -/
theorem c5_zero_length_asymmetry (io_limit : Nat) (mmc_mailbox : At24Data)
    (oracle : Nat → Bool) (off : Nat) :
    at24_write mmc_mailbox oracle off 0 = (-EINVAL, []) ∧
    at24_read io_limit mmc_mailbox oracle off 0 = (0, []) :=
  ⟨rfl, rfl⟩

/-- C7: the read planner returns `min count io_limit` and its value does
not depend on the offset or on any session field. -/
theorem c7_read_planner_is_min (io_limit : Nat)
    (mmc_mailbox mb2 : At24Data) (offset off2 count : Nat) :
    at24_adjust_read_count io_limit mmc_mailbox offset count
      = min count io_limit ∧
    at24_adjust_read_count io_limit mmc_mailbox offset count
      = at24_adjust_read_count io_limit mb2 off2 count := by
  unfold at24_adjust_read_count
  constructor
  · split <;> omega
  · rfl

/-- C8: with a registered session, the shutdown handshake performs exactly
one raw transport write (no retry loop), of `MB_FPGA_STATUS_SHDN_FINISHED`
to `MB_FPGA_STATUS_OFFS`, followed by a fixed 1000 ms delay, and its final
action is the fatal/unreachable report (`WARN_ON(1)`) marking that the
call is not expected to reach its end under normal operation. -/
theorem c8_poweroff_handshake :
    mmc_mailbox_do_poweroff true =
      [PEvent.rawWrite MB_FPGA_STATUS_OFFS MB_FPGA_STATUS_SHDN_FINISHED,
       PEvent.delay_ms 1000, PEvent.warn] ∧
    ((mmc_mailbox_do_poweroff true).filter
      (fun e => match e with | PEvent.rawWrite _ _ => true | _ => false)) =
      [PEvent.rawWrite MB_FPGA_STATUS_OFFS MB_FPGA_STATUS_SHDN_FINISHED] ∧
    (mmc_mailbox_do_poweroff true).getLast? = some PEvent.warn := by
  refine ⟨rfl, by decide, by decide⟩
